import Mathlib

/-!
Shallow embedding of the notebook `27_bidirectional_LSTM.ipynb`.

Text is modelled as a list of Unicode code points (`List ℕ`); integer token
sequences are `List ℕ`; probabilities are `ℚ`.  Framework operations whose
code is external (the dataset loader, the optimizer, `model.predict`) are
taken as parameters or modelled from the spec, each such definition saying so
in its doc comment.  Everything the repository's own code does (padding
invocation, word-index shifting, `predict_sentiment`) is translated directly
from the source.
-/

namespace BiLSTM

/-- `max_features = 10000`, the vocabulary size passed to `imdb.load_data`
and to the `Embedding` layer. -/
def max_features : ℕ := 10000

/-- `maxlen = 200`, the padded review length. -/
def maxlen : ℕ := 200

/-- Padding of a single sequence as `keras.preprocessing.sequence.pad_sequences`
does with its defaults (`padding='pre'`, `truncating='pre'`, `value=0`): a
sequence of length at least `m` keeps its last `m` entries, a shorter one is
extended with zeros on the left. -/
def padOne (m : ℕ) (s : List ℕ) : List ℕ :=
  if m ≤ s.length then s.drop (s.length - m)
  else List.replicate (m - s.length) 0 ++ s

/-- `pad_sequences` applied to a batch: pad every row. -/
def pad_sequences (m : ℕ) (seqs : List (List ℕ)) : List (List ℕ) :=
  seqs.map (padOne m)

theorem padOne_length (m : ℕ) (s : List ℕ) : (padOne m s).length = m := by
  unfold padOne
  split
  · simp only [List.length_drop]
    omega
  · simp only [List.length_append, List.length_replicate]
    omega

theorem padOne_short (m : ℕ) (s : List ℕ) (h : s.length < m) :
    padOne m s = List.replicate (m - s.length) 0 ++ s := by
  unfold padOne
  rw [if_neg]
  omega

theorem padOne_long (m : ℕ) (s : List ℕ) (h : m ≤ s.length) :
    padOne m s = s.drop (s.length - m) := by
  unfold padOne
  rw [if_pos h]

theorem mem_padOne (m : ℕ) (s : List ℕ) (i : ℕ) (hi : i ∈ padOne m s) :
    i = 0 ∨ i ∈ s := by
  unfold padOne at hi
  split at hi
  · exact Or.inr (List.mem_of_mem_drop hi)
  · rcases List.mem_append.mp hi with h | h
    · exact Or.inl (List.eq_of_mem_replicate h)
    · exact Or.inr h

/-- Python `str.lower` on a single code point (ASCII part, which is all the
notebook's inputs use): uppercase latin letters are shifted down into
lowercase, everything else is unchanged. -/
def pyLower (c : ℕ) : ℕ :=
  if 65 ≤ c ∧ c ≤ 90 then c + 32 else c

/-- `text.lower()`, code point by code point. -/
def strLower (s : List ℕ) : List ℕ :=
  s.map pyLower

/-- Python `str.split()` whitespace class (space, tab, newline, carriage
return, vertical tab, form feed). -/
def pyIsSpace (c : ℕ) : Bool :=
  c = 32 || c = 9 || c = 10 || c = 13 || c = 11 || c = 12

/-- Worker for `pySplit`: `acc` holds the reversed current word. -/
def pySplitAux : List ℕ → List ℕ → List (List ℕ)
  | [], acc => if acc = [] then [] else [acc.reverse]
  | c :: cs, acc =>
    if pyIsSpace c then
      (if acc = [] then [] else [acc.reverse]) ++ pySplitAux cs []
    else
      pySplitAux cs (c :: acc)

/-- Python `str.split()` with no argument: split on runs of whitespace,
discarding empty words. -/
def pySplit (s : List ℕ) : List (List ℕ) :=
  pySplitAux s []

/-- The code points of `"<PAD>"`. -/
def PAD_key : List ℕ := [60, 80, 65, 68, 62]

/-- The code points of `"<START>"`. -/
def START_key : List ℕ := [60, 83, 84, 65, 82, 84, 62]

/-- The code points of `"<UNK>"`. -/
def UNK_key : List ℕ := [60, 85, 78, 75, 62]

/-- The code points of `"<UNUSED>"`. -/
def UNUSED_key : List ℕ := [60, 85, 78, 85, 83, 69, 68, 62]

/-- The shifted word index built in the notebook from the raw index `w`
returned by `imdb.get_word_index()`: every raw entry is shifted by `+3`, and
the four reserved keys are then assigned indices 0..3 (the assignments run
after the shift, so they win on any collision). -/
def word_index (w : List ℕ → Option ℕ) (k : List ℕ) : Option ℕ :=
  if k = PAD_key then some 0
  else if k = START_key then some 1
  else if k = UNK_key then some 2
  else if k = UNUSED_key then some 3
  else (w k).map (fun v => v + 3)

/-- The token sequence `predict_sentiment` builds before padding:
lowercase, whitespace-split, then look each word up in the shifted index
with default `2` for unknown words (`word_index.get(word, 2)`). -/
def predictSeq (w : List ℕ → Option ℕ) (text : List ℕ) : List ℕ :=
  (pySplit (strLower text)).map (fun word => (word_index w word).getD 2)

/-- The printed verdict, modelled as a two-valued outcome instead of the
two literal strings. -/
inductive Sentiment where
  | positive
  | negative
deriving DecidableEq

/-- The branch at the end of `predict_sentiment`:
`if probability > 0.5: ... Positive ... else: ... Negative ...`. -/
def sentimentResult (p : ℚ) : Sentiment :=
  if 1 / 2 < p then Sentiment.positive else Sentiment.negative

/-- Modelled from the spec: the framework's `model.predict` maps each row of
the input batch to one output row holding the single sigmoid unit's value;
`m` is the per-row function computed by the current parameters. -/
def model_predict (m : List ℕ → ℚ) (batch : List (List ℕ)) : List (List ℚ) :=
  batch.map (fun row => [m row])

/-- `predict_sentiment`, translated statement by statement from the
notebook: tokenize, look up, pad the singleton batch, run the model, take
`prediction[0][0]`, and branch on the 0.5 threshold. -/
def predict_sentiment (w : List ℕ → Option ℕ) (m : List ℕ → ℚ)
    (text : List ℕ) : ℚ × Sentiment :=
  let words := pySplit (strLower text)
  let sequence := words.map (fun word => (word_index w word).getD 2)
  let padded_sequence := pad_sequences maxlen [sequence]
  let prediction := model_predict m padded_sequence
  let probability := (prediction.headD []).headD 0
  (probability, sentimentResult probability)

/-- Layer descriptors for the Keras layers the notebook instantiates. -/
inductive Layer where
  | Embedding (inputDim outputDim : ℕ)
  | LSTM (units : ℕ)
  | Bidirectional (inner : Layer)
  | Dense (units : ℕ) (sigmoidAct : Bool)
deriving DecidableEq

/-- Number of features a layer emits per input position; the `Bidirectional`
wrapper concatenates the forward and the backward copies of its inner
layer's output. -/
def Layer.outputFeatures : Layer → ℕ
  | .Embedding _ d => d
  | .LSTM u => u
  | .Bidirectional l => l.outputFeatures + l.outputFeatures
  | .Dense u _ => u

/-- A `Sequential` model is its layer list. -/
structure Sequential where
  layers : List Layer
deriving DecidableEq

/-- `model.add(layer)` appends a layer. -/
def Sequential.add (s : Sequential) (l : Layer) : Sequential :=
  ⟨s.layers ++ [l]⟩

/-- The notebook's model: `Sequential()` followed by the three `add` calls
`Embedding(max_features, 128)`, `Bidirectional(LSTM(64))`,
`Dense(1, activation='sigmoid')`. -/
def model : Sequential :=
  (((Sequential.mk []).add (Layer.Embedding max_features 128)).add
      (Layer.Bidirectional (Layer.LSTM 64))).add (Layer.Dense 1 true)

/-- The four arrays returned by `imdb.load_data(num_words=max_features)`. -/
structure RawData where
  x_train : List (List ℕ)
  y_train : List ℕ
  x_test : List (List ℕ)
  y_test : List ℕ

/-- Modelled from the spec: the contract of `imdb.load_data(num_words=n)` —
every review index is below `n`, every label is 0 or 1, and labels pair
one-to-one with reviews. -/
def load_data_spec (n : ℕ) (d : RawData) : Prop :=
  (∀ r ∈ d.x_train, ∀ i ∈ r, i < n) ∧
  (∀ r ∈ d.x_test, ∀ i ∈ r, i < n) ∧
  (∀ y ∈ d.y_train, y = 0 ∨ y = 1) ∧
  (∀ y ∈ d.y_test, y = 0 ∨ y = 1) ∧
  d.y_train.length = d.x_train.length ∧
  d.y_test.length = d.x_test.length

instance (n : ℕ) (d : RawData) : Decidable (load_data_spec n d) := by
  unfold load_data_spec
  infer_instance

/-- The notebook's mutable state, threaded explicitly: the model parameters
(of abstract type `P`), the four data arrays, the evaluation result, and the
list of `predict_sentiment` outputs. -/
structure PipeState (P : Type) where
  model : P
  x_train : List (List ℕ)
  y_train : List ℕ
  x_test : List (List ℕ)
  y_test : List ℕ
  score : Option (ℚ × ℚ)
  outputs : List (ℚ × Sentiment)

/-- State right after `imdb.load_data`. -/
def initState {P : Type} (m0 : P) (d : RawData) : PipeState P :=
  ⟨m0, d.x_train, d.y_train, d.x_test, d.y_test, none, []⟩

/-- The two `pad_sequences` assignments: `x_train` and `x_test` are replaced
by their padded versions, the labels are untouched. -/
def padStep {P : Type} (s : PipeState P) : PipeState P :=
  { s with
    x_train := pad_sequences maxlen s.x_train
    x_test := pad_sequences maxlen s.x_test }

/-- Modelled from the spec: `model.fit` lets the optimizer `opt` mutate the
parameters in place from the training arrays; nothing else changes. -/
def fitStep {P : Type} (opt : P → List (List ℕ) → List ℕ → P)
    (s : PipeState P) : PipeState P :=
  { s with model := opt s.model s.x_train s.y_train }

/-- Modelled from the spec: `model.evaluate` reads the parameters and the
test arrays and returns `(score, acc)`; the parameters are read-only. -/
def evaluateStep {P : Type} (ev : P → List (List ℕ) → List ℕ → ℚ × ℚ)
    (s : PipeState P) : PipeState P :=
  { s with score := some (ev s.model s.x_test s.y_test) }

/-- One `predict_sentiment(text)` call: the per-row predict function is the
current parameters read through `pr`; only the output log changes. -/
def predictStep {P : Type} (w : List ℕ → Option ℕ) (pr : P → List ℕ → ℚ)
    (text : List ℕ) (s : PipeState P) : PipeState P :=
  { s with outputs := s.outputs ++ [predict_sentiment w (pr s.model) text] }

/-- The whole notebook run after loading: pad, fit, evaluate, then the two
`predict_sentiment` calls on `t1` and `t2`. -/
def notebookRun {P : Type} (opt : P → List (List ℕ) → List ℕ → P)
    (ev : P → List (List ℕ) → List ℕ → ℚ × ℚ) (pr : P → List ℕ → ℚ)
    (w : List ℕ → Option ℕ) (m0 : P) (d : RawData) (t1 t2 : List ℕ) :
    PipeState P :=
  predictStep w pr t2 (predictStep w pr t1
    (evaluateStep ev (fitStep opt (padStep (initState m0 d)))))

theorem pySplitAux_chars (s : List ℕ) :
    ∀ acc, ∀ t ∈ pySplitAux s acc, ∀ c ∈ t, c ∈ s ∨ c ∈ acc := by
  induction s with
  | nil =>
    intro acc t ht c hc
    unfold pySplitAux at ht
    split at ht
    · simp at ht
    · simp only [List.mem_singleton] at ht
      subst ht
      exact Or.inr (List.mem_reverse.mp hc)
  | cons a as ih =>
    intro acc t ht c hc
    unfold pySplitAux at ht
    split at ht
    · rcases List.mem_append.mp ht with h | h
      · split at h
        · simp at h
        · simp only [List.mem_singleton] at h
          subst h
          exact Or.inr (List.mem_reverse.mp hc)
      · rcases ih [] t h c hc with h2 | h2
        · exact Or.inl (List.mem_cons_of_mem a h2)
        · simp at h2
    · rcases ih (a :: acc) t ht c hc with h2 | h2
      · exact Or.inl (List.mem_cons_of_mem a h2)
      · rcases List.mem_cons.mp h2 with h3 | h3
        · exact Or.inl (List.mem_cons.mpr (Or.inl h3))
        · exact Or.inr h3

theorem strLower_no_upper (text : List ℕ) :
    ∀ c ∈ strLower text, ¬(65 ≤ c ∧ c ≤ 90) := by
  intro c hc
  simp only [strLower, List.mem_map] at hc
  obtain ⟨d, _, h⟩ := hc
  subst h
  unfold pyLower
  split <;> omega

theorem token_ne_reserved (text t : List ℕ) (ht : t ∈ pySplit (strLower text)) :
    t ≠ PAD_key ∧ t ≠ START_key ∧ t ≠ UNK_key ∧ t ≠ UNUSED_key := by
  have hchar : ∀ c ∈ t, c ∈ strLower text := by
    intro c hc
    rcases pySplitAux_chars (strLower text) [] t ht c hc with h | h
    · exact h
    · simp at h
  have hup : ∀ c ∈ t, ¬(65 ≤ c ∧ c ≤ 90) :=
    fun c hc => strLower_no_upper text c (hchar c hc)
  refine ⟨?_, ?_, ?_, ?_⟩ <;> intro he <;> subst he
  · exact hup 80 (by decide) (by omega)
  · exact hup 83 (by decide) (by omega)
  · exact hup 85 (by decide) (by omega)
  · exact hup 85 (by decide) (by omega)

theorem word_index_not_reserved (w : List ℕ → Option ℕ) (k : List ℕ)
    (h1 : k ≠ PAD_key) (h2 : k ≠ START_key) (h3 : k ≠ UNK_key)
    (h4 : k ≠ UNUSED_key) :
    word_index w k = (w k).map (fun v => v + 3) := by
  unfold word_index
  rw [if_neg h1, if_neg h2, if_neg h3, if_neg h4]

theorem strLower_of_space (text : List ℕ)
    (h : ∀ c ∈ text, pyIsSpace c = true) : strLower text = text := by
  induction text with
  | nil => rfl
  | cons a as ih =>
    have ha : ((((a = 32 ∨ a = 9) ∨ a = 10) ∨ a = 13) ∨ a = 11) ∨ a = 12 := by
      have := h a (List.mem_cons_self a as)
      simp only [pyIsSpace, Bool.or_eq_true, decide_eq_true_eq] at this
      exact this
    have hla : pyLower a = a := by
      unfold pyLower
      rw [if_neg]
      omega
    have has : strLower as = as :=
      ih (fun c hc => h c (List.mem_cons_of_mem a hc))
    simp only [strLower, List.map_cons] at *
    rw [hla, has]

theorem pySplit_space (s : List ℕ)
    (h : ∀ c ∈ s, pyIsSpace c = true) : pySplit s = [] := by
  unfold pySplit
  induction s with
  | nil => rfl
  | cons a as ih =>
    unfold pySplitAux
    rw [if_pos (h a (List.mem_cons_self a as))]
    simp only [List.nil_append, if_pos rfl]
    exact ih (fun c hc => h c (List.mem_cons_of_mem a hc))

/-- Claim C1: padding with `maxlen = 200` produces a rectangular batch in
which every row has exactly 200 entries; a shorter sequence is extended with
zeros on the left and a longer one is truncated to 200 tokens (the last 200,
per the framework's `truncating='pre'` default). -/
theorem c1_padding_shape (seqs : List (List ℕ)) (s : List ℕ) :
    (∀ r ∈ pad_sequences maxlen seqs, r.length = maxlen) ∧
    (padOne maxlen s).length = maxlen ∧
    (s.length < maxlen →
      padOne maxlen s = List.replicate (maxlen - s.length) 0 ++ s) ∧
    (maxlen ≤ s.length → padOne maxlen s = s.drop (s.length - maxlen)) := by
  refine ⟨?_, padOne_length maxlen s, padOne_short maxlen s,
    padOne_long maxlen s⟩
  intro r hr
  simp only [pad_sequences, List.mem_map] at hr
  obtain ⟨t, -, rfl⟩ := hr
  exact padOne_length maxlen t

/-- Witness for C1 at concrete inputs: a short row is left-padded with
zeros, a long row ends up with exactly 200 entries. -/
theorem c1_padding_shape_witness :
    padOne maxlen [5, 6] = List.replicate (maxlen - [5, 6].length) 0 ++ [5, 6] ∧
    (padOne maxlen (List.replicate 300 7)).length = maxlen :=
  ⟨(c1_padding_shape [] [5, 6]).2.2.1 (by decide),
   (c1_padding_shape [] (List.replicate 300 7)).2.1⟩

/-- Claim C3: `predict_sentiment` computes its model input by lowercasing,
whitespace splitting, the shifted-index lookup with default 2, and
left-padding to 200, in that order (`predictSeq` then `padOne` compose those
stages); exactly that one padded row is fed to the model. -/
theorem c3_predict_pipeline (w : List ℕ → Option ℕ) (m : List ℕ → ℚ)
    (text : List ℕ) :
    predict_sentiment w m text =
      (m (padOne maxlen (predictSeq w text)),
       sentimentResult (m (padOne maxlen (predictSeq w text)))) ∧
    pad_sequences maxlen [predictSeq w text] =
      [padOne maxlen (predictSeq w text)] ∧
    model_predict m [padOne maxlen (predictSeq w text)] =
      [[m (padOne maxlen (predictSeq w text))]] :=
  ⟨rfl, rfl, rfl⟩

/-- Claim C5: the model is exactly the three layers
`Embedding(10000, 128)`, `Bidirectional(LSTM(64))` (concatenating 64 forward
and 64 backward features into 128), and `Dense(1, sigmoid)`; the sigmoid
output always lies in `[0, 1]`. -/
theorem c5_model_architecture :
    model.layers = [Layer.Embedding max_features 128,
      Layer.Bidirectional (Layer.LSTM 64), Layer.Dense 1 true] ∧
    max_features = 10000 ∧
    (Layer.Bidirectional (Layer.LSTM 64)).outputFeatures = 64 + 64 ∧
    (Layer.Bidirectional (Layer.LSTM 64)).outputFeatures = 128 ∧
    ∀ x : ℝ, (1 : ℝ) / (1 + Real.exp (-x)) ∈ Set.Icc (0 : ℝ) 1 := by
  refine ⟨rfl, rfl, rfl, rfl, fun x => ?_⟩
  have h0 : (0 : ℝ) < 1 + Real.exp (-x) := by positivity
  rw [Set.mem_Icc]
  constructor
  · positivity
  · rw [div_le_one h0]
    linarith [Real.exp_pos (-x)]

/-- Claim C8: the verdict is positive exactly when the probability is
strictly greater than 1/2, and a probability of exactly 1/2 is reported as
negative. -/
theorem c8_threshold (p : ℚ) :
    (sentimentResult p = Sentiment.positive ↔ 1 / 2 < p) ∧
    sentimentResult (1 / 2) = Sentiment.negative := by
  refine ⟨?_, by norm_num [sentimentResult]⟩
  by_cases h : 1 / 2 < p
  · simp [sentimentResult, h]
  · simp [sentimentResult, h]

/-- Witness for C8: probability 1 is reported positive, probability
exactly 1/2 negative. -/
theorem c8_threshold_witness :
    sentimentResult 1 = Sentiment.positive ∧
    sentimentResult (1 / 2) = Sentiment.negative :=
  ⟨(c8_threshold 1).1.mpr (by norm_num), (c8_threshold (1 / 2)).2⟩

/-- Claim C2 (amended): every entry of the padded training and test batches
is a valid embedding index below 10000 (the loader's `num_words` contract),
and every index produced by `predict_sentiment`'s lookup is below 10000
provided every word the raw index knows has shifted index below 10000;
unknown words always map to 2.  (As stated originally the claim is false:
the lookup passes shifted indices through with no upper bound, see the
counterexample.) -/
theorem c2_index_range (d : RawData) (hd : load_data_spec max_features d)
    (w : List ℕ → Option ℕ)
    (hw : ∀ k v, w k = some v → v + 3 < max_features) (text : List ℕ) :
    (∀ r ∈ pad_sequences maxlen d.x_train, ∀ i ∈ r, i < max_features) ∧
    (∀ r ∈ pad_sequences maxlen d.x_test, ∀ i ∈ r, i < max_features) ∧
    (∀ t ∈ predictSeq w text, t < max_features) := by
  obtain ⟨h1, h2, -, -, -, -⟩ := hd
  have hpad : ∀ (xs : List (List ℕ)), (∀ r ∈ xs, ∀ i ∈ r, i < max_features) →
      ∀ r ∈ pad_sequences maxlen xs, ∀ i ∈ r, i < max_features := by
    intro xs hxs r hr i hi
    simp only [pad_sequences, List.mem_map] at hr
    obtain ⟨t, ht, rfl⟩ := hr
    rcases mem_padOne maxlen t i hi with h | h
    · subst h
      decide
    · exact hxs t ht i h
  refine ⟨hpad d.x_train h1, hpad d.x_test h2, ?_⟩
  intro t ht
  simp only [predictSeq, List.mem_map] at ht
  obtain ⟨word, -, rfl⟩ := ht
  unfold word_index
  split
  · decide
  split
  · decide
  split
  · decide
  split
  · decide
  cases hwv : w word with
  | none => decide
  | some v => exact hw word v hwv

/-- The code points of `"rareword"`, standing for any word the raw index
maps to rank 9997. -/
def c2rare : List ℕ := [114, 97, 114, 101, 119, 111, 114, 100]

/-- A raw word index holding one word of rank 9997, as the real IMDB index
holds words of every rank up to about 88584. -/
def c2wbad : List ℕ → Option ℕ :=
  fun k => if k = c2rare then some 9997 else none

/-- Counterexample to C2 as stated: with a word of raw rank 9997 the lookup
produces the shifted index `9997 + 3 = 10000`, which is not a valid index
into the 10000-row embedding table. -/
theorem c2_counterexample :
    ¬ ∀ t ∈ predictSeq c2wbad c2rare, t < max_features := by decide

/-- A benign raw word index for the C2 witness: one word of rank 5. -/
def c2wgood : List ℕ → Option ℕ :=
  fun k => if k = [103] then some 5 else none

/-- Witness for the amended C2 at concrete inputs. -/
theorem c2_index_range_witness :
    (predictSeq c2wgood [103, 32, 122]).headD 0 < max_features := by
  have hw : ∀ k v, c2wgood k = some v → v + 3 < max_features := by
    intro k v h
    unfold c2wgood at h
    split at h
    · injection h with h2
      subst h2
      decide
    · exact Option.noConfusion h
  exact (c2_index_range ⟨[[1]], [1], [[2]], [0]⟩ (by decide) c2wgood hw
    [103, 32, 122]).2.2 _ (by decide)

/-- Claim C4: the repository's code adds no handling of its own: the
behavior of `predict_sentiment` is fully determined by the framework-owned
word index and predict function (so any failure or unknown-word handling
lives in them), and a word the shifted index does not know receives exactly
the default `2` that the code hands to the external `get`. -/
theorem c4_handling_delegated (w w2 : List ℕ → Option ℕ)
    (m m2 : List ℕ → ℚ) (text : List ℕ)
    (hw : ∀ k, w k = w2 k) (hm : ∀ s, m s = m2 s) :
    predict_sentiment w m text = predict_sentiment w2 m2 text ∧
    ∀ word, word_index w word = none → (word_index w word).getD 2 = 2 := by
  have hwe : w = w2 := funext hw
  have hme : m = m2 := funext hm
  subst hwe
  subst hme
  exact ⟨rfl, fun word h => by rw [h]; rfl⟩

/-- Witness for C4 at concrete framework parameters. -/
theorem c4_handling_delegated_witness :
    predict_sentiment (fun _ => none) (fun _ => (0 : ℚ)) [] =
      predict_sentiment (fun _k => none) (fun _s => (0 : ℚ)) [] :=
  (c4_handling_delegated _ _ _ _ [] (fun _ => rfl) (fun _ => rfl)).1

/-- Claim C6: no stage of the pipeline changes a label: after the whole run
the label arrays are exactly the loaded ones, every label is 0 or 1, and
labels still pair one-to-one with (padded) reviews. -/
theorem c6_labels_preserved {P : Type} (opt : P → List (List ℕ) → List ℕ → P)
    (ev : P → List (List ℕ) → List ℕ → ℚ × ℚ) (pr : P → List ℕ → ℚ)
    (w : List ℕ → Option ℕ) (m0 : P) (d : RawData) (t1 t2 : List ℕ)
    (hd : load_data_spec max_features d) :
    (notebookRun opt ev pr w m0 d t1 t2).y_train = d.y_train ∧
    (notebookRun opt ev pr w m0 d t1 t2).y_test = d.y_test ∧
    (∀ y ∈ (notebookRun opt ev pr w m0 d t1 t2).y_train, y = 0 ∨ y = 1) ∧
    (∀ y ∈ (notebookRun opt ev pr w m0 d t1 t2).y_test, y = 0 ∨ y = 1) ∧
    (notebookRun opt ev pr w m0 d t1 t2).y_train.length =
      (notebookRun opt ev pr w m0 d t1 t2).x_train.length ∧
    (notebookRun opt ev pr w m0 d t1 t2).y_test.length =
      (notebookRun opt ev pr w m0 d t1 t2).x_test.length := by
  obtain ⟨-, -, h3, h4, h5, h6⟩ := hd
  refine ⟨rfl, rfl, h3, h4, ?_, ?_⟩
  · show d.y_train.length = (pad_sequences maxlen d.x_train).length
    simp only [pad_sequences, List.length_map]
    exact h5
  · show d.y_test.length = (pad_sequences maxlen d.x_test).length
    simp only [pad_sequences, List.length_map]
    exact h6

/-- Witness for C6 on a one-review dataset with trivial framework
parameters. -/
theorem c6_labels_preserved_witness :
    (notebookRun (fun p _ _ => p) (fun _ _ _ => ((0 : ℚ), (0 : ℚ)))
      (fun _ _ => (0 : ℚ)) (fun _ => none) () ⟨[[1]], [1], [[2]], [0]⟩
      [] []).y_train = [1] :=
  (c6_labels_preserved (fun p _ _ => p) (fun _ _ _ => ((0 : ℚ), (0 : ℚ)))
    (fun _ _ => (0 : ℚ)) (fun _ => none) () ⟨[[1]], [1], [[2]], [0]⟩ [] []
    (by decide)).1

/-- Claim C7: the parameters are touched only by the fit step: evaluate,
predict (and padding) leave the model component of the state unchanged, and
after the whole run the parameters are exactly what the optimizer produced
from the padded training data. -/
theorem c7_params_only_fit {P : Type} (opt : P → List (List ℕ) → List ℕ → P)
    (ev : P → List (List ℕ) → List ℕ → ℚ × ℚ) (pr : P → List ℕ → ℚ)
    (w : List ℕ → Option ℕ) (m0 : P) (d : RawData) (t1 t2 : List ℕ) :
    (∀ s : PipeState P, (evaluateStep ev s).model = s.model) ∧
    (∀ s : PipeState P, ∀ t : List ℕ, (predictStep w pr t s).model = s.model) ∧
    (∀ s : PipeState P, (padStep s).model = s.model) ∧
    (notebookRun opt ev pr w m0 d t1 t2).model =
      opt m0 (pad_sequences maxlen d.x_train) d.y_train :=
  ⟨fun _ => rfl, fun _ _ => rfl, fun _ => rfl, rfl⟩

/-- Claim C9: the token sequence built before padding never contains the
reserved indices 0, 1 or 3: every token is either the unknown index 2 or at
least 4 (raw ranks start at 1, so shifting gives at least 4), and no start
token is prepended — the sequence has exactly one token per
whitespace-split word. -/
theorem c9_no_reserved_tokens (w : List ℕ → Option ℕ)
    (hw : ∀ k v, w k = some v → 1 ≤ v) (text : List ℕ) :
    (∀ t ∈ predictSeq w text,
      (t = 2 ∨ 4 ≤ t) ∧ t ≠ 0 ∧ t ≠ 1 ∧ t ≠ 3) ∧
    (predictSeq w text).length = (pySplit (strLower text)).length := by
  constructor
  · intro t ht
    have hmain : t = 2 ∨ 4 ≤ t := by
      simp only [predictSeq, List.mem_map] at ht
      obtain ⟨word, hword, rfl⟩ := ht
      obtain ⟨k1, k2, k3, k4⟩ := token_ne_reserved text word hword
      rw [word_index_not_reserved w word k1 k2 k3 k4]
      cases hwv : w word with
      | none => exact Or.inl rfl
      | some v =>
        have h1 := hw word v hwv
        have h2 : ((some v).map (fun u => u + 3)).getD 2 = v + 3 := rfl
        rw [h2]
        omega
    exact ⟨hmain, by omega, by omega, by omega⟩
  · simp only [predictSeq, List.length_map]

/-- A raw word index for the C9 witness: one word of rank 1. -/
def c9w : List ℕ → Option ℕ :=
  fun k => if k = [103] then some 1 else none

/-- Witness for C9 at a concrete index and input. -/
theorem c9_no_reserved_tokens_witness :
    ((predictSeq c9w [103]).headD 0 = 2 ∨ 4 ≤ (predictSeq c9w [103]).headD 0) ∧
    (predictSeq c9w [103]).headD 0 ≠ 0 ∧
    (predictSeq c9w [103]).headD 0 ≠ 1 ∧
    (predictSeq c9w [103]).headD 0 ≠ 3 := by
  have hw : ∀ k v, c9w k = some v → 1 ≤ v := by
    intro k v h
    unfold c9w at h
    split at h
    · injection h with h2
      omega
    · exact Option.noConfusion h
  exact (c9_no_reserved_tokens c9w hw [103]).1 _ (by decide)

/-- Claim C10: `predict_sentiment` is total on every input, including the
empty and the all-whitespace string: tokenization yields the empty
sequence, padding still produces a single row of 200 zeros, and a
prediction and a verdict are computed. -/
theorem c10_total_whitespace (w : List ℕ → Option ℕ) (m : List ℕ → ℚ)
    (text : List ℕ) (h : ∀ c ∈ text, pyIsSpace c = true) :
    pySplit (strLower text) = [] ∧
    predictSeq w text = [] ∧
    padOne maxlen (predictSeq w text) = List.replicate maxlen 0 ∧
    predict_sentiment w m text =
      (m (List.replicate maxlen 0),
       sentimentResult (m (List.replicate maxlen 0))) := by
  have h1 : strLower text = text := strLower_of_space text h
  have h2 : pySplit (strLower text) = [] := by
    rw [h1]
    exact pySplit_space text h
  have h3 : predictSeq w text = [] := by
    simp only [predictSeq, h2, List.map_nil]
  have h4 : padOne maxlen ([] : List ℕ) = List.replicate maxlen 0 := by
    unfold padOne
    rw [if_neg (by decide)]
    simp
  have h5 : predict_sentiment w m text =
      (m (padOne maxlen (predictSeq w text)),
       sentimentResult (m (padOne maxlen (predictSeq w text)))) := rfl
  refine ⟨h2, h3, ?_, ?_⟩
  · rw [h3]
    exact h4
  · rw [h5, h3, h4]

/-- Witness for C10: the empty input string still yields a prediction and
a verdict. -/
theorem c10_total_whitespace_witness :
    predict_sentiment (fun _ => none) (fun _ => (0 : ℚ)) [] =
      ((0 : ℚ), sentimentResult 0) :=
  (c10_total_whitespace (fun _ => none) (fun _ => (0 : ℚ)) []
    (by decide)).2.2.2

end BiLSTM
